import Mathlib

/-!
Verification development for the solana-coin-finder repository.

The repository has two engines: a multi-hop wallet-flow tracer
(`traceHops` in the MultiHopTracer component) and a common-holder
finder (`findCommonWallets` in CommonHolderAnalysis) whose candidates
are classified by the heuristics of `SolanaService`
(`isBotLikeBehavior`, `hasHumanLikeTraits`, `isHumanTrader`,
`fetchWalletTransactions`, `fetchTokenHolders`).

The embedding below is a shallow model of that TypeScript code:
JavaScript numbers are modelled as exact rationals (`Rat`), JS `Map`s
as insertion-ordered association lists, JS `Set`s as insertion-ordered
duplicate-free lists, and the asynchronous ledger endpoints as explicit
oracle arguments (`Option` marks a failed endpoint call).  Where a
float comparison against the literal `0.3` or `0.001` occurs, the
rational with the same decimal value is used; at every comparison
needed by a theorem below the float and the rational comparison give
the same verdict (the compared quantities are small integers or exact
decimal fractions, far from any rounding boundary of binary64).
The one place where binary64 rounding itself is observable — the
aggregation fold's running `existing.total + tx.amount` — is modelled
twice: `flowStep` with exact rational addition (the idealized
arithmetic), and `flowStepF` with `jsAdd`, binary64 addition modelled
faithfully as the exact sum rounded to 53 significant bits with
round-to-nearest, ties-to-even (`fl`), which is the source's `number`
semantics on the positive normal range (no overflow or subnormals,
which the order-dependence results below never approach).
-/

/-- Direction tag of a transfer event relative to the subject wallet
(the TypeScript union `'in' | 'out'`; `in` is a Lean keyword, hence
the constructor names). -/
inductive TxType where
  | tin : TxType
  | tout : TxType
deriving DecidableEq, Repr

/-- `TransactionData` from solanaService.ts.  `fromAddr`/`toAddr` stand
for the source fields `from`/`to` (Lean keywords), `amount` is the SOL
amount (lamports / 1e9) as an exact rational, `blockTime` a Unix
timestamp in seconds. -/
structure TransactionData where
  signature : String
  blockTime : Int
  amount : Rat
  fromAddr : String
  toAddr : String
  txType : TxType
deriving DecidableEq, Repr

/-- `FilterConfig` from solanaService.ts. -/
structure FilterConfig where
  excludeExchanges : Bool
  excludeDustWallets : Bool
  excludeBots : Bool
  useHumanHeuristics : Bool
  dustThreshold : Rat
  botFrequencyThreshold : Rat
deriving DecidableEq, Repr

/-- `WalletLabel` from solanaService.ts; optional fields are `Option`,
and a missing field is JS-falsy exactly like the empty string. -/
structure WalletLabel where
  address : String
  label : Option String
  type : Option String
  category : Option String
deriving DecidableEq, Repr

/-- A default transaction record, used only to give `List.headD` and
`List.getLastD` a value on branches where the list is provably
non-empty (mirroring the unchecked `transactions[0]` indexing in the
source). -/
def defaultTx : TransactionData :=
  { signature := "", blockTime := 0, amount := 0
    fromAddr := "", toAddr := "", txType := TxType.tin }

/-- The amount-repetition test inside `isBotLikeBehavior`
(solanaService.ts lines 333-341): collect the sampled amounts, count
the distinct values with a JS `Set`, and flag a bot when
`uniqueAmounts.size < amounts.length * 0.3`.  `List.dedup.length` is
the size of the set of distinct amounts; the float product with `0.3`
is modelled by the rational `3 / 10`. -/
def repetitionReject (transactions : List TransactionData) : Bool :=
  let amounts := transactions.map (fun tx => tx.amount)
  let uniqueSize := amounts.dedup.length
  decide ((uniqueSize : Rat) < (amounts.length : Rat) * (3 / 10))

/-- The frequency test inside `isBotLikeBehavior` (solanaService.ts
lines 323-331): only evaluated when more than 10 transactions were
sampled; the elapsed span between the newest (first) and oldest (last)
sampled event in hours is floored at 1, and the events-per-hour rate is
compared with the configured threshold. -/
def frequencyReject (transactions : List TransactionData)
    (config : FilterConfig) : Bool :=
  if transactions.length > 10 then
    let tFirst := (transactions.headD defaultTx).blockTime
    let tLast := (transactions.getLastD defaultTx).blockTime
    let timeSpan : Rat := max 1 (((tFirst - tLast : Int) : Rat) / 3600)
    let frequency : Rat := (transactions.length : Rat) / timeSpan
    decide (frequency > config.botFrequencyThreshold)
  else
    false

/-- `isBotLikeBehavior` from solanaService.ts (lines 320-343): an empty
sample is never bot-like; otherwise the frequency test and then the
amount-repetition test are applied in order. -/
def isBotLikeBehavior (transactions : List TransactionData)
    (config : FilterConfig) : Bool :=
  if transactions.length = 0 then false
  else if frequencyReject transactions config then true
  else if repetitionReject transactions then true
  else false

/-- `hasHumanLikeTraits` from solanaService.ts (lines 345-363): an
empty sample returns `false`; with more than 5 transactions the
consecutive block-time gaps over the 10 most recent samples are formed
(`t[i-1] - t[i]` for `1 <= i < min(length, 10)`), and the sample is
human-like when the variance of the gaps exceeds half their mean;
with 1 to 5 transactions the sample is presumed human. -/
def hasHumanLikeTraits (transactions : List TransactionData) : Bool :=
  if transactions.length = 0 then false
  else if transactions.length > 5 then
    let sample := transactions.take 10
    let intervals : List Rat :=
      List.zipWith (fun a b => ((a.blockTime - b.blockTime : Int) : Rat))
        sample (sample.drop 1)
    let avgInterval : Rat := intervals.sum / (intervals.length : Rat)
    let variance : Rat :=
      (intervals.map (fun t => (t - avgInterval) ^ 2)).sum
        / (intervals.length : Rat)
    decide (variance > avgInterval * (1 / 2))
  else
    true

/-- JS `String.prototype.includes` for a non-empty pattern: `s`
contains `pat` as a substring exactly when splitting `s` on `pat`
yields more than one piece. -/
def jsIncludes (s pat : String) : Bool := (s.splitOn pat).length != 1

/-- The keyword lists of `isExchangeOrProtocolWallet`. -/
def exchangeKeywords : List String :=
  ["exchange", "binance", "coinbase", "kraken", "okx", "bybit", "cex"]

/-- The protocol keyword list of `isExchangeOrProtocolWallet`. -/
def protocolKeywords : List String :=
  ["jupiter", "raydium", "orca", "serum", "mango", "protocol"]

/-- `isExchangeOrProtocolWallet` from solanaService.ts (lines 308-318):
a label with all three text fields JS-falsy (absent or empty) is not an
exchange; otherwise the three fields are joined with spaces, lowered,
and matched against the keyword lists by substring containment. -/
def isExchangeOrProtocolWallet (label : WalletLabel) : Bool :=
  if label.label.getD "" = "" && label.type.getD "" = ""
      && label.category.getD "" = "" then
    false
  else
    let text := (label.label.getD "" ++ " " ++ label.type.getD "" ++ " "
      ++ label.category.getD "").toLower
    exchangeKeywords.any (fun k => jsIncludes text k)
      || protocolKeywords.any (fun k => jsIncludes text k)

/-- `isHumanTrader` from solanaService.ts (lines 271-306), with the two
ledger reads (label fetch, transaction sample) supplied as arguments:
the four filter stages run in order and short-circuit on the first
rejection.  (The surrounding `try`/`catch` that fails open on a thrown
error is not reachable in this pure model; none of the stages throw.) -/
def isHumanTrader (walletLabel : WalletLabel)
    (transactions : List TransactionData) (config : FilterConfig) : Bool :=
  if config.excludeExchanges && isExchangeOrProtocolWallet walletLabel then
    false
  else if config.excludeDustWallets
      && decide ((transactions.map (fun tx => tx.amount)).sum
        < config.dustThreshold) then
    false
  else if config.excludeBots && isBotLikeBehavior transactions config then
    false
  else if config.useHumanHeuristics && !hasHumanLikeTraits transactions then
    false
  else
    true

/-- Value stored in the per-hop aggregation maps of `traceHops`
(`{ total: number; count: number }`). -/
structure Agg where
  total : Rat
  count : Nat
deriving DecidableEq, Repr

/-- A JS `Map<string, Agg>` modelled as an insertion-ordered
association list: lookup (`Map.get`). -/
def mapGet (m : List (String × Agg)) (k : String) : Option Agg :=
  (m.find? (fun p => p.1 = k)).map (fun p => p.2)

/-- `Map.set`: overwrite in place when the key is present (JS `Map`
keeps the original insertion position), otherwise append at the end. -/
def mapSet (m : List (String × Agg)) (k : String) (v : Agg) :
    List (String × Agg) :=
  if m.any (fun p => p.1 = k) then
    m.map (fun p => if p.1 = k then (k, v) else p)
  else
    m ++ [(k, v)]

/-- One step of the aggregation fold of `traceHops` (MultiHopTracer,
lines 122-127 and 134-139): look up the running aggregate for the
event's counterparty key, defaulting to `{ total: 0, count: 0 }`, add
the event's amount and bump the count.  This variant reads
`existing.total + tx.amount` as exact rational addition — the
idealized-arithmetic reading of the source; `flowStepF` below performs
the same step with the source's binary64 addition. -/
def flowStep (key : TransactionData → String) (m : List (String × Agg))
    (tx : TransactionData) : List (String × Agg) :=
  let existing := (mapGet m (key tx)).getD { total := 0, count := 0 }
  mapSet m (key tx)
    { total := existing.total + tx.amount, count := existing.count + 1 }

/-- The aggregation fold of `traceHops` (MultiHopTracer, lines 119-140)
for one direction: fold the already-filtered transfer events, keyed by
`key` (the counterparty address of the event), summing amounts and
counting events. -/
def foldFlowMap (key : TransactionData → String)
    (txs : List TransactionData) : List (String × Agg) :=
  txs.foldl (flowStep key) []

/-- The total amount of the events in `l` whose counterparty key is
`k` (reference value for the fold). -/
def amtSum (key : TransactionData → String) (l : List TransactionData)
    (k : String) : Rat :=
  ((l.filter (fun tx => key tx = k)).map (fun tx => tx.amount)).sum

/-- The number of events in `l` whose counterparty key is `k`. -/
def evtCount (key : TransactionData → String) (l : List TransactionData)
    (k : String) : Nat :=
  (l.filter (fun tx => key tx = k)).length

/-- The filter in front of the inflow fold: `tx.type === 'in' &&
tx.from && tx.from !== walletAddress` (a JS-falsy `from` is the empty
string). -/
def inflowPred (walletAddress : String) (tx : TransactionData) : Bool :=
  tx.txType = TxType.tin && tx.fromAddr ≠ "" && tx.fromAddr ≠ walletAddress

/-- The filter in front of the outflow fold: `tx.type === 'out' &&
tx.to && tx.to !== walletAddress`. -/
def outflowPred (walletAddress : String) (tx : TransactionData) : Bool :=
  tx.txType = TxType.tout && tx.toAddr ≠ "" && tx.toAddr ≠ walletAddress

/-- The `inflowMap` built by `traceHops` (lines 119-128). -/
def inflowMap (walletAddress : String) (transactions : List TransactionData) :
    List (String × Agg) :=
  foldFlowMap (fun tx => tx.fromAddr)
    (transactions.filter (inflowPred walletAddress))

/-- The `outflowMap` built by `traceHops` (lines 131-140). -/
def outflowMap (walletAddress : String)
    (transactions : List TransactionData) : List (String × Agg) :=
  foldFlowMap (fun tx => tx.toAddr)
    (transactions.filter (outflowPred walletAddress))

/-- Direction tag of a `WalletFlow` row. -/
inductive FlowType where
  | inflow : FlowType
  | outflow : FlowType
deriving DecidableEq, Repr

/-- `WalletFlow` from MultiHopTracer. -/
structure WalletFlow where
  address : String
  totalIn : Rat
  totalOut : Rat
  transactionCount : Nat
  flowType : FlowType
  hop : Nat
deriving DecidableEq, Repr

/-- The `WalletFlow` row pushed for one inflow aggregate. -/
def mkInflowRow (a : String) (agg : Agg) (hop : Nat) : WalletFlow :=
  { address := a, totalIn := agg.total, totalOut := 0
    transactionCount := agg.count, flowType := FlowType.inflow
    hop := hop }

/-- The `WalletFlow` row pushed for one outflow aggregate. -/
def mkOutflowRow (a : String) (agg : Agg) (hop : Nat) : WalletFlow :=
  { address := a, totalIn := 0, totalOut := agg.total
    transactionCount := agg.count, flowType := FlowType.outflow
    hop := hop }

/-- The inflow rows `traceHops` pushes for one subject (lines 143-154):
iterate the inflow map in insertion order and keep an aggregate exactly
when its total is strictly above the fixed dust floor `0.001`. -/
def survivingInflows (walletAddress : String) (currentHop : Nat)
    (transactions : List TransactionData) : List WalletFlow :=
  ((inflowMap walletAddress transactions).filter
      (fun p => decide (p.2.total > 1 / 1000))).map
    (fun p => mkInflowRow p.1 p.2 currentHop)

/-- The outflow rows `traceHops` pushes for one subject (lines
156-167). -/
def survivingOutflows (walletAddress : String) (currentHop : Nat)
    (transactions : List TransactionData) : List WalletFlow :=
  ((outflowMap walletAddress transactions).filter
      (fun p => decide (p.2.total > 1 / 1000))).map
    (fun p => mkOutflowRow p.1 p.2 currentHop)

/-- The next-hop frontier selected by `traceHops` (lines 175-178): the
concatenation of the inflow map's keys and the outflow map's keys, each
in first-insertion order, truncated to the first 5 entries. -/
def nextHopWallets (walletAddress : String)
    (transactions : List TransactionData) : List String :=
  ((inflowMap walletAddress transactions).map Prod.fst
      ++ (outflowMap walletAddress transactions).map Prod.fst).take 5

/-- The mutable state threaded through one trace run: the accumulated
inflow/outflow rows, the visited set `processedWallets` (a JS `Set`,
modelled as an insertion-ordered list), and a ghost log recording one
entry per call to `solanaService.fetchWalletTransactions`, in call
order (the instrumentation the fetched-at-most-once and fetch-count
claims speak about). -/
structure TraceState where
  inflows : List WalletFlow
  outflows : List WalletFlow
  processedWallets : List String
  fetchLog : List String
deriving DecidableEq, Repr

/-- The empty state a run starts from (`traceWalletFlows`, lines
77-81). -/
def initialTraceState : TraceState :=
  { inflows := [], outflows := [], processedWallets := [], fetchLog := [] }

/-- The body of one expansion after the visited guard has passed and
the address has been marked visited: fetch the transfer history (the
fetch is recorded in the ghost log), aggregate it, and append the
surviving rows tagged with the current hop. -/
def expandWallet (fetch : String → List TransactionData)
    (walletAddress : String) (currentHop : Nat) (st : TraceState) :
    TraceState :=
  let transactions := fetch walletAddress
  { st with
    fetchLog := st.fetchLog ++ [walletAddress]
    inflows := st.inflows
      ++ survivingInflows walletAddress currentHop transactions
    outflows := st.outflows
      ++ survivingOutflows walletAddress currentHop transactions }

/-- `traceHops` from MultiHopTracer (lines 101-187), with the ledger
modelled as a pure oracle `fetch` from address to sampled transfer
history.  Guard: return unchanged when `remainingHops <= 0` or the
address is already visited; otherwise mark visited (before the history
is fetched), expand, and when `remainingHops > 1` recurse sequentially
over the first-5 frontier with one hop fewer remaining.  (The progress
bar update and the per-branch `try`/`catch` are presentation-only: the
modelled `fetchWalletTransactions` never throws, it returns `[]` on
failure.) -/
def traceHops (fetch : String → List TransactionData) :
    Nat → String → Nat → TraceState → TraceState
  | 0, _, _, st => st
  | remainingHops + 1, walletAddress, currentHop, st =>
    if st.processedWallets.contains walletAddress then st
    else
      let st1 := { st with
        processedWallets := st.processedWallets ++ [walletAddress] }
      let st2 := expandWallet fetch walletAddress currentHop st1
      if remainingHops + 1 > 1 then
        (nextHopWallets walletAddress (fetch walletAddress)).foldl
          (fun s w => traceHops fetch remainingHops w (currentHop + 1) s) st2
      else
        st2

/-- `1 + 5 + 5^2 + ... + 5^(k-1)`: the fetch budget of a trace with
`k` remaining hops and branching cap 5. -/
def geomSum : Nat → Nat
  | 0 => 0
  | n + 1 => 1 + 5 * geomSum n

/-- `new Set(list)` in first-insertion order, then spread back to an
array: keep the first occurrence of each element. -/
def firstDedup : List String → List String
  | [] => []
  | a :: t => a :: firstDedup (t.filter (fun x => x ≠ a))
termination_by l => l.length
decreasing_by
  simp only [List.length_cons]
  exact Nat.lt_succ_of_le (List.length_filter_le _ _)

/-- One pairwise step of the holder intersection
(CommonHolderAnalysis, lines 125-128): keep the wallets of the running
intersection that the next holder set also contains. -/
def intersectStep (common : List String) (s : List String) : List String :=
  common.filter (fun x => s.contains x)

/-- Outcome of the intersection stage of `findCommonWallets`: either
the early "No Results" return (no token produced any holders — a
success path, not an error), or the computed common-wallet list. -/
inductive FindOutcome where
  | noResults : FindOutcome
  | common : List String → FindOutcome
deriving DecidableEq, Repr

/-- Steps 1-2 of `findCommonWallets` (CommonHolderAnalysis, lines
100-129), with the per-mint holder fetches supplied as results:
`none` is a fetch whose promise rejected — its `.catch` handler turns
it into the empty list.  Empty lists are then filtered out; if nothing
non-empty remains the run returns early reporting "No Results" (not an
error); otherwise the non-empty holder sets are intersected pairwise
starting from the first one. -/
def findCommonWallets (holderResults : List (Option (List String))) :
    FindOutcome :=
  match (holderResults.map (fun r => r.getD [])).filter
      (fun l => l.length > 0) with
  | [] => FindOutcome.noResults
  | first :: rest =>
    FindOutcome.common (rest.foldl intersectStep (firstDedup first))

/-- A parsed instruction as `fetchWalletTransactions` inspects it:
`program` and `parsedType` are the `ix.program` / `ix.parsed.type`
strings, and a system transfer carries source, destination and
lamports. -/
structure ParsedInstruction where
  program : String
  parsedType : String
  source : String
  destination : String
  lamports : Int
deriving DecidableEq, Repr

/-- A parsed transaction: top-level instructions plus the groups of
inner instructions from `tx.meta.innerInstructions`. -/
structure ParsedTransaction where
  topLevel : List ParsedInstruction
  innerGroups : List (List ParsedInstruction)
deriving DecidableEq, Repr

/-- One entry of `getSignaturesForAddress`; `blockTime` is optional and
defaulted to 0 (`sigInfo.blockTime || 0`). -/
structure SignatureInfo where
  signature : String
  blockTime : Option Int
deriving DecidableEq, Repr

/-- The `addTransfer` closure of `fetchWalletTransactions`
(solanaService.ts lines 171-192), applied to one instruction: a system
transfer whose destination is the subject yields an `in` event, one
whose source is the subject an `out` event, anything else nothing. -/
def addTransfer (walletAddress sig : String) (bt : Int)
    (ix : ParsedInstruction) : List TransactionData :=
  if ix.program = "system" && ix.parsedType = "transfer" then
    let amount : Rat := (ix.lamports : Rat) / 1000000000
    if ix.destination = walletAddress then
      [{ signature := sig, blockTime := bt, amount := amount
         fromAddr := ix.source, toAddr := ix.destination
         txType := TxType.tin }]
    else if ix.source = walletAddress then
      [{ signature := sig, blockTime := bt, amount := amount
         fromAddr := ix.source, toAddr := ix.destination
         txType := TxType.tout }]
    else []
  else []

/-- The events extracted from one parsed transaction: top-level
instructions first, then every inner-instruction group, in order. -/
def extractFromTx (walletAddress : String) (si : SignatureInfo)
    (tx : ParsedTransaction) : List TransactionData :=
  (tx.topLevel.map
      (addTransfer walletAddress si.signature (si.blockTime.getD 0))).flatten
    ++ (tx.innerGroups.map (fun g =>
        (g.map (addTransfer walletAddress si.signature
          (si.blockTime.getD 0))).flatten)).flatten

/-- `fetchWalletTransactions` from solanaService.ts (lines 156-269).
`sigResult` is the outcome of `getSignaturesForAddress`: `none` means
the request failed, in which case the outer `catch` logs and returns
the empty list — the total-failure case is NOT surfaced as an error to
the caller.  On success the first 50 signatures are scanned; `getTx`
is the per-signature parse oracle (primary attempt with the fallback
retry folded in, both branches of the source extract identically), and
an absent transaction is skipped. -/
def fetchWalletTransactions (walletAddress : String)
    (sigResult : Option (List SignatureInfo))
    (getTx : String → Option ParsedTransaction) : List TransactionData :=
  match sigResult with
  | none => []
  | some signatures =>
    ((signatures.take 50).map (fun si =>
      match getTx si.signature with
      | none => []
      | some tx => extractFromTx walletAddress si tx)).flatten

/-- `fetchTokenHolders` from solanaService.ts (lines 40-135), with the
three endpoint attempts supplied as results (`none` = that endpoint's
`getProgramAccounts` failed) and each returned token account abstracted
to the owner address decoded from its byte range: try primary, then
fallback, then backup; deduplicate owners with a JS `Set`; only when
all three endpoints failed does the call throw
`Failed to fetch holders for token: <mint>`. -/
def fetchTokenHolders (tokenAddress : String)
    (primary fallback backup : Option (List String)) :
    Except String (List String) :=
  match primary with
  | some accounts => Except.ok (firstDedup accounts)
  | none =>
    match fallback with
    | some accounts => Except.ok (firstDedup accounts)
    | none =>
      match backup with
      | some accounts => Except.ok (firstDedup accounts)
      | none =>
        Except.error ("Failed to fetch holders for token: " ++ tokenAddress)

/-! ## Concrete inputs used by counterexamples and witnesses -/

/-- An inbound transfer event, for building concrete samples. -/
def inTx (sig src : String) (t : Int) (amt : Rat) : TransactionData :=
  { signature := sig, blockTime := t, amount := amt
    fromAddr := src, toAddr := "S", txType := TxType.tin }

/-- An outbound transfer event, for building concrete samples. -/
def outTx (sig dst : String) (t : Int) (amt : Rat) : TransactionData :=
  { signature := sig, blockTime := t, amount := amt
    fromAddr := "S", toAddr := dst, txType := TxType.tout }

/-- Four sampled transfers with amounts 1, 1, 1, 2: a single amount
value (1) accounts for 75 percent of the sample. -/
def c3Txs : List TransactionData :=
  [inTx "s1" "X" 400 1, inTx "s2" "X" 300 1, inTx "s3" "X" 200 1,
   inTx "s4" "Y" 100 2]

/-- A filter configuration with every stage enabled. -/
def cfgAll : FilterConfig :=
  { excludeExchanges := true, excludeDustWallets := true
    excludeBots := true, useHumanHeuristics := true
    dustThreshold := 1 / 10, botFrequencyThreshold := 50 }

/-- A configuration with only the human-heuristic stage enabled. -/
def cfgHeuristicOnly : FilterConfig :=
  { excludeExchanges := false, excludeDustWallets := false
    excludeBots := false, useHumanHeuristics := true
    dustThreshold := 1 / 10, botFrequencyThreshold := 50 }

/-- An unlabeled wallet. -/
def plainLabel : WalletLabel :=
  { address := "W", label := none, type := none, category := none }

/-- The claim's reading of the repetition criterion: some single
amount value accounts for strictly more than 70 percent of the sampled
amounts. -/
def specMajorityShare (transactions : List TransactionData) : Prop :=
  ∃ a : Rat,
    10 * ((transactions.map (fun tx => tx.amount)).filter
      (fun x => x = a)).length > 7 * transactions.length

/-- An inbound transfer of exactly 0.001 SOL from `X` to subject
`S`: the boundary case of the aggregate dust floor. -/
def dustEdgeTx : TransactionData := inTx "s1" "X" 100 (1 / 1000)

/-- The spec scenario sample: subject `S` receives 1.0 from `X` three
times and 0.0001 from `Y` once. -/
def dustScenarioTxs : List TransactionData :=
  [inTx "s1" "X" 400 1, inTx "s2" "X" 300 1, inTx "s3" "X" 200 1,
   inTx "s4" "Y" 100 (1 / 10000)]

/-- A sample with one surviving inflow aggregate and one surviving
outflow aggregate, for instantiating the dust-floor theorem. -/
def mixedTxs : List TransactionData :=
  [inTx "s1" "X" 200 2, outTx "s2" "Y" 100 5]

/-- Six inbound counterparties of target `T` in first-seen order
`a1..a6`, where the last-seen one (`a6`) has by far the largest total:
distinguishes first-seen order from descending-total order. -/
def c6Txs : List TransactionData :=
  [{ signature := "t1", blockTime := 600, amount := 1, fromAddr := "a1"
     toAddr := "T", txType := TxType.tin },
   { signature := "t2", blockTime := 500, amount := 1, fromAddr := "a2"
     toAddr := "T", txType := TxType.tin },
   { signature := "t3", blockTime := 400, amount := 1, fromAddr := "a3"
     toAddr := "T", txType := TxType.tin },
   { signature := "t4", blockTime := 300, amount := 1, fromAddr := "a4"
     toAddr := "T", txType := TxType.tin },
   { signature := "t5", blockTime := 200, amount := 1, fromAddr := "a5"
     toAddr := "T", txType := TxType.tin },
   { signature := "t6", blockTime := 100, amount := 9, fromAddr := "a6"
     toAddr := "T", txType := TxType.tin }]

/-- A ledger oracle whose only active address is `T` with the
`c6Txs` history. -/
def c6Fetch : String → List TransactionData :=
  fun a => if a = "T" then c6Txs else []

/-- A parse oracle on which every `getParsedTransaction` returns
nothing. -/
def noTx : String → Option ParsedTransaction := fun _ => none

/-- Modelled from the claim's words, for comparison with the code: an
intersection to which every mint contributes its holder set — a failed
fetch contributing the empty set — with no contribution skipped. -/
def specIntersectAll (holderResults : List (Option (List String))) :
    List String :=
  match holderResults.map (fun r => firstDedup (r.getD [])) with
  | [] => []
  | first :: rest => rest.foldl intersectStep first


/-- The scaled significand of a positive rational: `q * 2^(52 - e)`
with `2^e <= q < 2^(e+1)`, so the result lies in `[2^52, 2^53)`. -/
def flScaled (q : Rat) : Rat := q * (2 : Rat) ^ ((52 : Int) - Int.log 2 q)

/-- Round a rational to the nearest integer, ties to even — the IEEE
round-to-nearest-even rule applied to a scaled significand. -/
def roundNearestEven (s : Rat) : Int :=
  if s - ⌊s⌋ < 1 / 2 then ⌊s⌋
  else if s - ⌊s⌋ > 1 / 2 then ⌊s⌋ + 1
  else if ⌊s⌋ % 2 = 0 then ⌊s⌋ else ⌊s⌋ + 1

/-- Binary64 rounding of a non-negative rational in the positive
normal range (plus zero): the value the source's IEEE-754 `number`
type stores for an exact result — the significand rounded to 53 bits,
round-to-nearest, ties-to-even.  Overflow to infinity and subnormals
are outside the range of any value handled below. -/
def fl (q : Rat) : Rat :=
  if q = 0 then 0
  else (roundNearestEven (flScaled q) : Rat) * (2 : Rat) ^ (Int.log 2 q - 52)

/-- Binary64 addition of the source's `number` type: the exact sum,
rounded. -/
def jsAdd (x y : Rat) : Rat := fl (x + y)

/-- One step of the aggregation fold exactly as the source computes
it: `existing.total + tx.amount` is binary64 addition (`jsAdd`), not
exact rational addition. -/
def flowStepF (key : TransactionData → String) (m : List (String × Agg))
    (tx : TransactionData) : List (String × Agg) :=
  let existing := (mapGet m (key tx)).getD { total := 0, count := 0 }
  mapSet m (key tx)
    { total := jsAdd existing.total tx.amount
      count := existing.count + 1 }

/-- The aggregation fold with binary64 addition. -/
def foldFlowMapF (key : TransactionData → String)
    (txs : List TransactionData) : List (String × Agg) :=
  txs.foldl (flowStepF key) []

/-- The inflow map as the source computes it, binary64 totals. -/
def inflowMapF (walletAddress : String)
    (transactions : List TransactionData) : List (String × Agg) :=
  foldFlowMapF (fun tx => tx.fromAddr)
    (transactions.filter (inflowPred walletAddress))

/-- The outflow map as the source computes it, binary64 totals. -/
def outflowMapF (walletAddress : String)
    (transactions : List TransactionData) : List (String × Agg) :=
  foldFlowMapF (fun tx => tx.toAddr)
    (transactions.filter (outflowPred walletAddress))

/-- The binary64 running total for key `k` over the events of `l`, in
list order, starting from `z`: a left fold of `jsAdd` (reference value
for the binary64 fold). -/
def floatTotal (key : TransactionData → String)
    (l : List TransactionData) (k : String) (z : Rat) : Rat :=
  ((l.filter (fun tx => key tx = k)).map (fun tx => tx.amount)).foldl
    jsAdd z

/-- Three inbound transfers from `X` to subject `S` with amounts 1, 1
and 2^53 = 9007199254740992 (each exactly representable in binary64),
newest-first order. -/
def c8TxsA : List TransactionData :=
  [inTx "r1" "X" 30 1, inTx "r2" "X" 20 1,
   inTx "r3" "X" 10 9007199254740992]

/-- The same three transfers in the reverse order. -/
def c8TxsB : List TransactionData :=
  [inTx "r3" "X" 10 9007199254740992, inTx "r2" "X" 20 1,
   inTx "r1" "X" 30 1]

/-- The run invariant of a trace: the fetch log is duplicate-free and
every fetched address is already in the visited set (it was marked
visited before its history was fetched). -/
def TraceInv (st : TraceState) : Prop :=
  st.fetchLog.Nodup ∧ ∀ a ∈ st.fetchLog, a ∈ st.processedWallets

/-- A state in which `V` is already visited, for instantiating the
visited-guard theorem. -/
def visitedState : TraceState :=
  { inflows := [], outflows := [], processedWallets := ["V"]
    fetchLog := [] }

/-! ## Helper lemmas -/

/-- Folding preserves any invariant preserved by each step. -/
theorem foldl_preserve {α σ : Type} (P : σ → Prop) (f : σ → α → σ)
    (hstep : ∀ s a, P s → P (f s a)) :
    ∀ (l : List α) (s : σ), P s → P (l.foldl f s) := by
  intro l
  induction l with
  | nil => intro s h; exact h
  | cons a t iht => intro s h; exact iht _ (hstep _ _ h)

/-- A sample of at most 10 transactions never triggers the frequency
test. -/
theorem frequencyReject_small (transactions : List TransactionData)
    (config : FilterConfig) (h : transactions.length ≤ 10) :
    frequencyReject transactions config = false := by
  unfold frequencyReject
  have : ¬ transactions.length > 10 := by omega
  simp [this]

/-! ## C3: the bot filter's repetition criterion -/

/-- C3 counterexample: in the sample `c3Txs` the amount 1 accounts for
75 percent (more than 70 percent) of the sampled amounts, yet neither
the repetition test nor the whole bot classifier rejects it — the code
tests distinct-amount cardinality (`uniqueAmounts.size <
amounts.length * 0.3`, here `2 < 1.2` is false), not the share of the
most frequent amount.  This refutes the claim that the criterion
rejects exactly when one amount exceeds a 70 percent share. -/
theorem repetition_criterion_not_majority_share :
    specMajorityShare c3Txs ∧ repetitionReject c3Txs = false
    ∧ isBotLikeBehavior c3Txs cfgAll = false :=
  ⟨⟨1, by norm_num [c3Txs, inTx]⟩,
   by norm_num [repetitionReject, c3Txs, inTx],
   by norm_num [isBotLikeBehavior, frequencyReject, repetitionReject,
     c3Txs, inTx, cfgAll]⟩

/-- C3 (amended): with the bot filter enabled, for every non-empty
sample the repetition criterion rejects exactly when the number of
distinct amount values is strictly below 30 percent of the sample size
(`uniqueAmounts.size < amounts.length * 0.3`); and on samples of at
most 10 transactions the whole bot classifier coincides with the
repetition criterion. -/
theorem repetitionReject_iff_low_cardinality
    (txs : List TransactionData) (cfg : FilterConfig) (h : txs ≠ []) :
    (repetitionReject txs = true
      ↔ 10 * (txs.map (fun tx => tx.amount)).dedup.length < 3 * txs.length)
    ∧ (txs.length ≤ 10 → isBotLikeBehavior txs cfg = repetitionReject txs) := by
  constructor
  · unfold repetitionReject
    simp only [decide_eq_true_eq, List.length_map]
    rw [show ((txs.length : Nat) : Rat) * (3 / 10)
        = ((3 * txs.length : Nat) : Rat) / 10 by push_cast; ring]
    rw [lt_div_iff₀ (by norm_num : (0:Rat) < 10)]
    rw [show (((txs.map (fun tx => tx.amount)).dedup.length : Rat) * 10)
        = ((10 * (txs.map (fun tx => tx.amount)).dedup.length : Nat) : Rat) by
      push_cast; ring]
    exact Nat.cast_lt (α := Rat)
  · intro hlen
    have hlen0 : ¬ txs.length = 0 := by
      simpa [List.length_eq_zero] using h
    unfold isBotLikeBehavior
    simp only [hlen0, if_false, frequencyReject_small txs cfg hlen]
    cases hrep : repetitionReject txs <;> simp [hrep]

/-- Witness for the amended C3 at the concrete sample `c3Txs`. -/
theorem repetitionReject_iff_low_cardinality_witness :
    (repetitionReject c3Txs = true
      ↔ 10 * (c3Txs.map (fun tx => tx.amount)).dedup.length
          < 3 * c3Txs.length)
    ∧ (c3Txs.length ≤ 10
        → isBotLikeBehavior c3Txs cfgAll = repetitionReject c3Txs) :=
  repetitionReject_iff_low_cardinality c3Txs cfgAll (by decide)

/-! ## C4: small samples and the human-heuristic stage -/

/-- `isBotLikeBehavior` reads only `botFrequencyThreshold` from the
configuration. -/
theorem isBotLikeBehavior_congr (txs : List TransactionData)
    (cfg cfg' : FilterConfig)
    (h : cfg.botFrequencyThreshold = cfg'.botFrequencyThreshold) :
    isBotLikeBehavior txs cfg = isBotLikeBehavior txs cfg' := by
  unfold isBotLikeBehavior frequencyReject
  rw [h]

/-- C4 counterexample: `hasHumanLikeTraits` returns `false` on the
empty sample (the guard `transactions.length === 0` returns `false`,
not `true`), and consequently a run with the human-heuristic filter
enabled rejects a candidate with an empty sample.  This refutes the
claim that every sample of at most 5 transactions — "including a
sample of zero transactions" — is presumed human. -/
theorem hasHumanLikeTraits_empty_false :
    hasHumanLikeTraits [] = false
    ∧ isHumanTrader plainLabel [] cfgHeuristicOnly = false := by
  constructor <;> decide

/-- C4 (amended): every candidate whose sample contains between 1 and
5 transactions is presumed human — `hasHumanLikeTraits` returns `true`
— so the human-heuristic stage never rejects such a sample (the
verdict is the same as with that stage disabled); the empty sample, by
contrast, is rejected by this stage. -/
theorem hasHumanLikeTraits_small_sample (txs : List TransactionData)
    (label : WalletLabel) (cfg : FilterConfig)
    (h1 : txs ≠ []) (h2 : txs.length ≤ 5) :
    hasHumanLikeTraits txs = true
    ∧ isHumanTrader label txs cfg
        = isHumanTrader label txs { cfg with useHumanHeuristics := false } := by
  have hlen0 : ¬ txs.length = 0 := by
    simpa [List.length_eq_zero] using h1
  have hlen5 : ¬ txs.length > 5 := by omega
  have hh : hasHumanLikeTraits txs = true := by
    unfold hasHumanLikeTraits
    simp [hlen0, hlen5]
  refine ⟨hh, ?_⟩
  have hbot : isBotLikeBehavior txs { cfg with useHumanHeuristics := false }
      = isBotLikeBehavior txs cfg :=
    isBotLikeBehavior_congr txs _ _ rfl
  unfold isHumanTrader
  simp [hh, hbot]

/-- Witness for the amended C4 at a concrete 2-transaction sample. -/
theorem hasHumanLikeTraits_small_sample_witness :
    hasHumanLikeTraits [inTx "s1" "X" 10 1, inTx "s2" "Y" 5 2] = true
    ∧ isHumanTrader plainLabel [inTx "s1" "X" 10 1, inTx "s2" "Y" 5 2] cfgAll
        = isHumanTrader plainLabel [inTx "s1" "X" 10 1, inTx "s2" "Y" 5 2]
            { cfgAll with useHumanHeuristics := false } :=
  hasHumanLikeTraits_small_sample _ plainLabel cfgAll (by decide) (by decide)

/-! ## C10: the frequency criterion needs more than 10 transactions -/

/-- C10: on a sample of at most 10 transactions, the bot verdict does
not depend on the configuration at all (in particular not on
`botFrequencyThreshold`: the `transactions.length > 10` guard skips
the frequency test), it equals the repetition criterion on a non-empty
sample, and the empty sample is never classified as bot-like. -/
theorem isBotLikeBehavior_small_sample (txs : List TransactionData)
    (cfg cfg' : FilterConfig) (hlen : txs.length ≤ 10) :
    isBotLikeBehavior txs cfg = isBotLikeBehavior txs cfg'
    ∧ isBotLikeBehavior txs cfg = (!txs.isEmpty && repetitionReject txs)
    ∧ isBotLikeBehavior [] cfg = false := by
  refine ⟨?_, ?_, by unfold isBotLikeBehavior; simp⟩
  · unfold isBotLikeBehavior
    rw [frequencyReject_small txs cfg hlen, frequencyReject_small txs cfg' hlen]
  · cases txs with
    | nil => unfold isBotLikeBehavior; simp
    | cons a t =>
      unfold isBotLikeBehavior
      rw [frequencyReject_small _ cfg hlen]
      have hne : ¬ (a :: t).length = 0 := by simp
      simp only [hne, if_false, List.isEmpty_cons, Bool.not_false,
        Bool.true_and]
      cases hrep : repetitionReject (a :: t) <;> simp

/-- Witness for C10 at the concrete sample `c3Txs` and two
configurations differing in `botFrequencyThreshold`. -/
theorem isBotLikeBehavior_small_sample_witness :
    isBotLikeBehavior c3Txs cfgAll
      = isBotLikeBehavior c3Txs { cfgAll with botFrequencyThreshold := 0 }
    ∧ isBotLikeBehavior c3Txs cfgAll = (!c3Txs.isEmpty && repetitionReject c3Txs)
    ∧ isBotLikeBehavior [] cfgAll = false :=
  isBotLikeBehavior_small_sample c3Txs cfgAll
    { cfgAll with botFrequencyThreshold := 0 } (by decide)

/-! ## The aggregation fold: lookup characterization -/

/-- In-place replacement of key `k`: looking up `k` afterwards finds
the new value exactly when `k` was present. -/
theorem find_replace_self (t : List (String × Agg)) (k : String) (v : Agg) :
    (t.map (fun p => if p.1 = k then (k, v) else p)).find?
        (fun p => p.1 = k)
      = if t.any (fun p => p.1 = k) then some (k, v) else none := by
  induction t with
  | nil => simp
  | cons p t ih =>
    by_cases hp : p.1 = k
    · rw [List.map_cons, if_pos hp]
      rw [List.find?_cons_of_pos _ (by simp)]
      rw [List.any_cons]
      simp [hp]
    · rw [List.map_cons, if_neg hp]
      rw [List.find?_cons_of_neg _ (by simp [hp])]
      rw [ih, List.any_cons]
      rw [decide_eq_false hp, Bool.false_or]

/-- In-place replacement of key `k` does not affect lookups of other
keys. -/
theorem find_replace_ne (t : List (String × Agg)) (k k' : String)
    (v : Agg) (hne : ¬ k' = k) :
    (t.map (fun p => if p.1 = k then (k, v) else p)).find?
        (fun p => p.1 = k')
      = t.find? (fun p => p.1 = k') := by
  have hkk : ¬ k = k' := fun h => hne h.symm
  induction t with
  | nil => simp
  | cons p t ih =>
    by_cases hp : p.1 = k
    · have hp' : ¬ p.1 = k' := by rw [hp]; exact hkk
      rw [List.map_cons, if_pos hp]
      rw [List.find?_cons_of_neg _ (by simp [hkk])]
      rw [List.find?_cons_of_neg _ (by simp [hp'])]
      exact ih
    · rw [List.map_cons, if_neg hp]
      by_cases hp' : p.1 = k'
      · rw [List.find?_cons_of_pos _ (by simp [hp']),
          List.find?_cons_of_pos _ (by simp [hp'])]
      · rw [List.find?_cons_of_neg _ (by simp [hp']),
          List.find?_cons_of_neg _ (by simp [hp'])]
        exact ih

/-- Looking up the updated key after a `mapSet` yields the new value;
any other key is unaffected. -/
theorem mapGet_mapSet (m : List (String × Agg)) (k k' : String) (v : Agg) :
    mapGet (mapSet m k v) k' = if k' = k then some v else mapGet m k' := by
  unfold mapGet mapSet
  by_cases hin : m.any (fun p => p.1 = k)
  · rw [if_pos hin]
    by_cases hk : k' = k
    · subst hk
      rw [find_replace_self, if_pos hin, if_pos rfl]
      rfl
    · rw [find_replace_ne m k k' v hk, if_neg hk]
  · rw [if_neg hin, List.find?_append]
    by_cases hk : k' = k
    · subst hk
      have hnone : m.find? (fun p => decide (p.1 = k')) = none := by
        rw [List.find?_eq_none]
        intro x hx hpx
        apply hin
        rw [List.any_eq_true]
        exact ⟨x, hx, hpx⟩
      rw [hnone]
      simp [List.find?_cons]
    · have hkk : ¬ k = k' := fun h => hk h.symm
      have hone : (([(k, v)]) : List (String × Agg)).find?
          (fun p => decide (p.1 = k')) = none := by
        simp [List.find?_cons, hkk]
      rw [hone]
      cases m.find? (fun p => decide (p.1 = k')) <;> simp [hk]

/-- `amtSum` ignores events with a different key in front. -/
theorem amtSum_cons (key : TransactionData → String)
    (tx : TransactionData) (t : List TransactionData) (k : String) :
    amtSum key (tx :: t) k
      = if key tx = k then tx.amount + amtSum key t k
        else amtSum key t k := by
  unfold amtSum
  by_cases h : key tx = k <;> simp [List.filter_cons, h]

/-- `evtCount` ignores events with a different key in front. -/
theorem evtCount_cons (key : TransactionData → String)
    (tx : TransactionData) (t : List TransactionData) (k : String) :
    evtCount key (tx :: t) k
      = if key tx = k then evtCount key t k + 1
        else evtCount key t k := by
  unfold evtCount
  by_cases h : key tx = k <;> simp [List.filter_cons, h]

/-- Lookup in the aggregation fold started from an arbitrary
accumulator: the fold adds the amounts and counts of the new events to
whatever the accumulator already held for the key. -/
theorem mapGet_foldl_flowStep (key : TransactionData → String) :
    ∀ (l : List TransactionData) (m : List (String × Agg)) (k : String),
      mapGet (l.foldl (flowStep key) m) k
        = match mapGet m k with
          | some agg => some { total := agg.total + amtSum key l k
                               count := agg.count + evtCount key l k }
          | none =>
            if evtCount key l k = 0 then none
            else some { total := amtSum key l k
                        count := evtCount key l k } := by
  intro l
  induction l with
  | nil =>
    intro m k
    simp only [List.foldl_nil]
    cases hm : mapGet m k with
    | none => simp [amtSum, evtCount]
    | some agg => simp [amtSum, evtCount]
  | cons tx t ih =>
    intro m k
    rw [List.foldl_cons, ih, amtSum_cons, evtCount_cons]
    show (match mapGet (flowStep key m tx) k with
      | some agg => _ | none => _) = _
    unfold flowStep
    rw [mapGet_mapSet]
    by_cases hk : k = key tx
    · have hk' : key tx = k := hk.symm
      rw [if_pos hk, if_pos hk', if_pos hk', ← hk]
      cases hm : mapGet m k with
      | none =>
        simp only [hm, Option.getD_none]
        have h0 : ¬ (evtCount key t k + 1 = 0) := by omega
        simp only [h0, if_false]
        congr 1
        refine congrArg₂ _ ?_ ?_
        · show (0 : Rat) + tx.amount + amtSum key t k
            = tx.amount + amtSum key t k
          ring
        · omega
      | some agg =>
        simp only [hm, Option.getD_some]
        congr 1
        refine congrArg₂ _ ?_ ?_
        · show agg.total + tx.amount + amtSum key t k
            = agg.total + (tx.amount + amtSum key t k)
          ring
        · omega
    · have hk' : ¬ key tx = k := fun h => hk h.symm
      rw [if_neg hk, if_neg hk', if_neg hk']

/-- Lookup in a finished aggregation map: a key is present exactly
when some event carries it, and then holds the total amount and the
event count of its events. -/
theorem mapGet_foldFlowMap (key : TransactionData → String)
    (l : List TransactionData) (k : String) :
    mapGet (foldFlowMap key l) k
      = if evtCount key l k = 0 then none
        else some { total := amtSum key l k, count := evtCount key l k } := by
  unfold foldFlowMap
  rw [mapGet_foldl_flowStep]
  have hnil : mapGet [] k = (none : Option Agg) := rfl
  rw [hnil]

/-! ## C8: what is and is not order-independent in the aggregation -/

/-- `Int.log 2` is determined by the enclosing binade. -/
theorem int_log_eq (q : Rat) (e : Int) (h0 : 0 < q)
    (h1 : (2 : Rat) ^ e ≤ q) (h2 : q < (2 : Rat) ^ (e + 1)) :
    Int.log 2 q = e := by
  have hcast : ((2 : Nat) : Rat) = (2 : Rat) := by norm_num
  have ha : e ≤ Int.log 2 q := by
    rw [← Int.zpow_le_iff_le_log (by norm_num) h0, hcast]
    exact h1
  have hb : Int.log 2 q < e + 1 := by
    rw [← Int.lt_zpow_iff_log_lt (by norm_num) h0, hcast]
    exact h2
  omega

/-- `fl` is the identity on a value whose 53-bit significand is
exact. -/
theorem fl_exact (q : Rat) (e n : Int) (hq : ¬ q = 0)
    (hlog : Int.log 2 q = e)
    (hsn : flScaled q = (n : Rat))
    (hback : (n : Rat) * (2 : Rat) ^ (e - 52) = q) :
    fl q = q := by
  have hfloor : ⌊flScaled q⌋ = n := by rw [hsn]; exact Int.floor_intCast n
  have hround : roundNearestEven (flScaled q) = n := by
    unfold roundNearestEven
    rw [hfloor, hsn]
    norm_num
  unfold fl
  rw [if_neg hq, hround, hlog, hback]

/-- 1 is exactly representable. -/
theorem fl_one : fl 1 = 1 :=
  fl_exact 1 0 4503599627370496 (by norm_num)
    (Int.log_one_right 2)
    (by unfold flScaled; rw [Int.log_one_right]; norm_num)
    (by norm_num)

/-- 2 is exactly representable. -/
theorem fl_two : fl 2 = 2 :=
  fl_exact 2 1 4503599627370496 (by norm_num)
    (int_log_eq 2 1 (by norm_num) (by norm_num) (by norm_num))
    (by
      unfold flScaled
      rw [int_log_eq 2 1 (by norm_num) (by norm_num) (by norm_num)]
      norm_num)
    (by norm_num)

/-- 2^53 is exactly representable. -/
theorem fl_big : fl 9007199254740992 = 9007199254740992 :=
  fl_exact 9007199254740992 53 4503599627370496 (by norm_num)
    (int_log_eq _ 53 (by norm_num) (by norm_num) (by norm_num))
    (by
      unfold flScaled
      rw [int_log_eq _ 53 (by norm_num) (by norm_num) (by norm_num)]
      norm_num)
    (by norm_num)

/-- 2^53 + 2 is exactly representable (even significand). -/
theorem fl_big_add_two : fl 9007199254740994 = 9007199254740994 :=
  fl_exact 9007199254740994 53 4503599627370497 (by norm_num)
    (int_log_eq _ 53 (by norm_num) (by norm_num) (by norm_num))
    (by
      unfold flScaled
      rw [int_log_eq _ 53 (by norm_num) (by norm_num) (by norm_num)]
      norm_num)
    (by norm_num)

/-- 2^53 + 1 is NOT representable: its scaled significand is the tie
`2^52 + 1/2`, and round-to-nearest-even rounds down to the even
`2^52`, losing the `+ 1`. -/
theorem fl_big_add_one : fl 9007199254740993 = 9007199254740992 := by
  have hlog : Int.log 2 (9007199254740993 : Rat) = 53 :=
    int_log_eq _ 53 (by norm_num) (by norm_num) (by norm_num)
  have hs : flScaled 9007199254740993 = 9007199254740993 / 2 := by
    unfold flScaled
    rw [hlog]
    norm_num
  have hfloor : ⌊(9007199254740993 : Rat) / 2⌋ = 4503599627370496 := by
    rw [Int.floor_eq_iff]
    constructor <;> norm_num
  have hround : roundNearestEven ((9007199254740993 : Rat) / 2)
      = 4503599627370496 := by
    unfold roundNearestEven
    rw [hfloor]
    norm_num
  unfold fl
  rw [if_neg (by norm_num), hs, hround, hlog]
  norm_num

/-- The binary64 sums arising in the two fold orders of the
counterexample transfers. -/
theorem jsAdd_zero_one : jsAdd 0 1 = 1 := by
  unfold jsAdd
  norm_num [fl_one]

/-- `1 + 1` is exact in binary64. -/
theorem jsAdd_one_one : jsAdd 1 1 = 2 := by
  unfold jsAdd
  norm_num [fl_two]

/-- `2 + 2^53` is exact in binary64 (even significand). -/
theorem jsAdd_two_big : jsAdd 2 9007199254740992 = 9007199254740994 := by
  unfold jsAdd
  norm_num [fl_big_add_two]

/-- `0 + 2^53` is exact in binary64. -/
theorem jsAdd_zero_big :
    jsAdd 0 9007199254740992 = 9007199254740992 := by
  unfold jsAdd
  norm_num [fl_big]

/-- `2^53 + 1` rounds back down to `2^53`: the added 1 is absorbed. -/
theorem jsAdd_big_one :
    jsAdd 9007199254740992 1 = 9007199254740992 := by
  unfold jsAdd
  norm_num [fl_big_add_one]

/-- `floatTotal` over a cons. -/
theorem floatTotal_cons (key : TransactionData → String)
    (tx : TransactionData) (t : List TransactionData) (k : String)
    (z : Rat) :
    floatTotal key (tx :: t) k z
      = if key tx = k then floatTotal key t k (jsAdd z tx.amount)
        else floatTotal key t k z := by
  unfold floatTotal
  by_cases h : key tx = k <;> simp [List.filter_cons, h]

/-- Lookup in the binary64 aggregation fold started from an arbitrary
accumulator: the count adds the number of new events with the key,
and the total is the left-to-right binary64 running sum of their
amounts — in list order, since `jsAdd` is not associative. -/
theorem mapGet_foldl_flowStepF (key : TransactionData → String) :
    ∀ (l : List TransactionData) (m : List (String × Agg)) (k : String),
      mapGet (l.foldl (flowStepF key) m) k
        = match mapGet m k with
          | some agg => some { total := floatTotal key l k agg.total
                               count := agg.count + evtCount key l k }
          | none =>
            if evtCount key l k = 0 then none
            else some { total := floatTotal key l k 0
                        count := evtCount key l k } := by
  intro l
  induction l with
  | nil =>
    intro m k
    simp only [List.foldl_nil]
    cases hm : mapGet m k with
    | none => simp [evtCount, floatTotal]
    | some agg => simp [evtCount, floatTotal]
  | cons tx t ih =>
    intro m k
    rw [List.foldl_cons]
    show mapGet (t.foldl (flowStepF key) (flowStepF key m tx)) k = _
    rw [ih]
    unfold flowStepF
    rw [mapGet_mapSet]
    by_cases hk : k = key tx
    · have hk2 : key tx = k := hk.symm
      have ht1 : (k = key tx) = True := eq_true hk
      have ht2 : (key tx = k) = True := eq_true hk2
      simp only [floatTotal_cons, evtCount_cons, ht1, ht2, if_true, ← hk]
      cases hm : mapGet m k with
      | none =>
        simp only [Option.getD_none]
        have h0 : ¬ (evtCount key t k + 1 = 0) := by omega
        simp only [h0, if_false]
        congr 1
        refine congrArg₂ _ ?_ ?_
        · rfl
        · omega
      | some agg =>
        simp only [Option.getD_some]
        congr 1
        refine congrArg₂ _ ?_ ?_
        · rfl
        · omega
    · have hk2 : ¬ key tx = k := fun h => hk h.symm
      have hf1 : (k = key tx) = False := eq_false hk
      have hf2 : (key tx = k) = False := eq_false hk2
      simp only [floatTotal_cons, evtCount_cons, hf1, hf2, if_false]

/-- Lookup in a finished binary64 aggregation map. -/
theorem mapGet_foldFlowMapF (key : TransactionData → String)
    (l : List TransactionData) (k : String) :
    mapGet (foldFlowMapF key l) k
      = if evtCount key l k = 0 then none
        else some { total := floatTotal key l k 0
                    count := evtCount key l k } := by
  unfold foldFlowMapF
  rw [mapGet_foldl_flowStepF]
  have hnil : mapGet [] k = (none : Option Agg) := rfl
  rw [hnil]

/-- The two counterexample orders are permutations of each other. -/
theorem c8_perm : c8TxsA.Perm c8TxsB := by
  unfold c8TxsA c8TxsB
  refine List.Perm.trans (List.Perm.cons _ (List.Perm.swap _ _ _)) ?_
  refine List.Perm.trans (List.Perm.swap _ _ _) ?_
  exact List.Perm.cons _ (List.Perm.swap _ _ _)

/-- C8 counterexample: the two orders of the same three transfers
(amounts 1, 1 and 2^53) are a permutation of each other, yet the
binary64 fold — the arithmetic the source actually performs — gives X
the total `2^53 + 2` in one order (`(1 + 1) + 2^53`, exact) and
`2^53` in the other (`(2^53 + 1) + 1`, each `+ 1` absorbed by
round-to-nearest-even), so the per-counterparty total amounts are NOT
permutation-invariant in the program.  The event counts agree. -/
theorem aggregation_float_totals_order_dependent :
    c8TxsA.Perm c8TxsB
    ∧ mapGet (inflowMapF "S" c8TxsA) "X"
        = some { total := 9007199254740994, count := 3 }
    ∧ mapGet (inflowMapF "S" c8TxsB) "X"
        = some { total := 9007199254740992, count := 3 }
    ∧ ¬ mapGet (inflowMapF "S" c8TxsA) "X"
        = mapGet (inflowMapF "S" c8TxsB) "X" := by
  have hA : mapGet (inflowMapF "S" c8TxsA) "X"
      = some { total := 9007199254740994, count := 3 } := by
    simp [inflowMapF, foldFlowMapF, flowStepF, mapGet, mapSet,
      inflowPred, c8TxsA, inTx, List.filter, List.foldl, List.find?,
      List.any, jsAdd_zero_one, jsAdd_one_one, jsAdd_two_big]
  have hB : mapGet (inflowMapF "S" c8TxsB) "X"
      = some { total := 9007199254740992, count := 3 } := by
    simp [inflowMapF, foldFlowMapF, flowStepF, mapGet, mapSet,
      inflowPred, c8TxsB, inTx, List.filter, List.foldl, List.find?,
      List.any, jsAdd_zero_big, jsAdd_big_one]
  refine ⟨c8_perm, hA, hB, ?_⟩
  rw [hA, hB]
  simp only [Option.some_inj, Agg.mk.injEq, not_and]
  intro htot
  norm_num at htot

/-- C8 (amended): shuffling the input transfer-event list before
folding produces identical per-counterparty event counts (and the
same counterparties), proved over the binary64-faithful fold the
source performs; the per-counterparty total amounts are
permutation-invariant under exact rational addition (the idealized
fold), but not under the program's binary64 addition, where
reordering can change a total by rounding. -/
theorem aggregation_perm_counts_invariant (w a : String)
    (l1 l2 : List TransactionData) (h : l1.Perm l2) :
    Option.map Agg.count (mapGet (inflowMapF w l1) a)
      = Option.map Agg.count (mapGet (inflowMapF w l2) a)
    ∧ Option.map Agg.count (mapGet (outflowMapF w l1) a)
      = Option.map Agg.count (mapGet (outflowMapF w l2) a)
    ∧ mapGet (inflowMap w l1) a = mapGet (inflowMap w l2) a
    ∧ mapGet (outflowMap w l1) a = mapGet (outflowMap w l2) a := by
  have hcnt : ∀ (key : TransactionData → String)
      (p : TransactionData → Bool),
      evtCount key (l1.filter p) a = evtCount key (l2.filter p) a := by
    intro key p
    unfold evtCount
    exact (((h.filter p)).filter _).length_eq
  have hcntF : ∀ (key : TransactionData → String)
      (p : TransactionData → Bool),
      Option.map Agg.count (mapGet (foldFlowMapF key (l1.filter p)) a)
        = Option.map Agg.count (mapGet (foldFlowMapF key (l2.filter p)) a) := by
    intro key p
    rw [mapGet_foldFlowMapF, mapGet_foldFlowMapF, hcnt key p]
    by_cases h0 : evtCount key (l2.filter p) a = 0
    · simp [h0]
    · simp [h0]
  have hexact : ∀ (key : TransactionData → String)
      (p : TransactionData → Bool),
      mapGet (foldFlowMap key (l1.filter p)) a
        = mapGet (foldFlowMap key (l2.filter p)) a := by
    intro key p
    have hperm : (l1.filter p).Perm (l2.filter p) := h.filter p
    have hsum : amtSum key (l1.filter p) a = amtSum key (l2.filter p) a := by
      unfold amtSum
      exact ((hperm.filter _).map _).sum_eq
    rw [mapGet_foldFlowMap, mapGet_foldFlowMap, hcnt key p, hsum]
  unfold inflowMapF outflowMapF inflowMap outflowMap
  exact ⟨hcntF _ _, hcntF _ _, hexact _ _, hexact _ _⟩

/-- Witness for the amended C8 at the concrete reordered transfers:
the counts agree under the binary64 fold and the exact-fold lookups
agree, even though (per the counterexample) the binary64 totals
differ. -/
theorem aggregation_perm_counts_invariant_witness :
    Option.map Agg.count (mapGet (inflowMapF "S" c8TxsA) "X")
      = Option.map Agg.count (mapGet (inflowMapF "S" c8TxsB) "X")
    ∧ Option.map Agg.count (mapGet (outflowMapF "S" c8TxsA) "X")
      = Option.map Agg.count (mapGet (outflowMapF "S" c8TxsB) "X")
    ∧ mapGet (inflowMap "S" c8TxsA) "X" = mapGet (inflowMap "S" c8TxsB) "X"
    ∧ mapGet (outflowMap "S" c8TxsA) "X"
        = mapGet (outflowMap "S" c8TxsB) "X" :=
  aggregation_perm_counts_invariant "S" "X" c8TxsA c8TxsB c8_perm

/-! ## C2: the aggregate dust floor is strict -/

/-- C2 counterexample: an inbound aggregate whose total is exactly
0.001 — one transfer of `1 / 1000` — is present in the inflow map but
dropped from the pushed results, because the code keeps an aggregate
only when `data.total > 0.001` holds strictly.  This refutes the
claim that a total equal to 0.001 is kept. -/
theorem dust_floor_drops_exact_threshold :
    inflowMap "S" [dustEdgeTx]
      = [("X", { total := 1 / 1000, count := 1 })]
    ∧ survivingInflows "S" 0 [dustEdgeTx] = [] := by
  constructor
  · norm_num [inflowMap, foldFlowMap, flowStep, mapGet, mapSet,
      inflowPred, dustEdgeTx, inTx, List.filter, List.foldl, List.find?,
      List.any]
  · norm_num [survivingInflows, inflowMap, foldFlowMap, flowStep, mapGet,
      mapSet, inflowPred, dustEdgeTx, inTx, List.filter, List.foldl,
      List.find?, List.any]

/-- C2 (amended): an aggregate is dropped from the pushed
inflow/outflow rows exactly when its total is less than or equal to
the 0.001 dust floor (kept iff strictly greater, so a total of exactly
0.001 is dropped); the X/Y scenario — inbound 1.0 from X three times,
0.0001 from Y once — yields exactly one row, for X with total 3 and
count 3, and drops Y. -/
theorem dust_floor_strictly_above (w : String) (hop : Nat)
    (txs : List TransactionData) (a b : String) (agg agg2 : Agg)
    (hmem : (a, agg) ∈ inflowMap w txs)
    (hmem2 : (b, agg2) ∈ outflowMap w txs) :
    (mkInflowRow a agg hop ∈ survivingInflows w hop txs
      ↔ agg.total > 1 / 1000)
    ∧ (mkOutflowRow b agg2 hop ∈ survivingOutflows w hop txs
      ↔ agg2.total > 1 / 1000)
    ∧ survivingInflows "S" 0 dustScenarioTxs
        = [mkInflowRow "X" { total := 3, count := 3 } 0] := by
  refine ⟨?_, ?_, ?_⟩
  · constructor
    · intro hmemS
      unfold survivingInflows at hmemS
      rw [List.mem_map] at hmemS
      obtain ⟨p, hpfilter, hpeq⟩ := hmemS
      rw [List.mem_filter] at hpfilter
      have hteq : p.2.total = agg.total := by
        have := congrArg WalletFlow.totalIn hpeq
        simpa [mkInflowRow] using this
      rw [← hteq]
      simpa using hpfilter.2
    · intro htot
      unfold survivingInflows
      rw [List.mem_map]
      exact ⟨(a, agg), List.mem_filter.mpr ⟨hmem, by simpa using htot⟩, rfl⟩
  · constructor
    · intro hmemS
      unfold survivingOutflows at hmemS
      rw [List.mem_map] at hmemS
      obtain ⟨p, hpfilter, hpeq⟩ := hmemS
      rw [List.mem_filter] at hpfilter
      have hteq : p.2.total = agg2.total := by
        have := congrArg WalletFlow.totalOut hpeq
        simpa [mkOutflowRow] using this
      rw [← hteq]
      simpa using hpfilter.2
    · intro htot
      unfold survivingOutflows
      rw [List.mem_map]
      exact ⟨(b, agg2), List.mem_filter.mpr ⟨hmem2, by simpa using htot⟩,
        rfl⟩
  · norm_num [survivingInflows, inflowMap, foldFlowMap, flowStep, mapGet,
      mapSet, inflowPred, dustScenarioTxs, inTx, List.filter, List.foldl,
      List.find?, List.any, mkInflowRow]
    simp
    norm_num

/-- Witness for the amended C2 at the concrete `mixedTxs` sample. -/
theorem dust_floor_strictly_above_witness :
    (mkInflowRow "X" { total := 2, count := 1 } 0
        ∈ survivingInflows "S" 0 mixedTxs
      ↔ ({ total := 2, count := 1 } : Agg).total > 1 / 1000)
    ∧ (mkOutflowRow "Y" { total := 5, count := 1 } 0
        ∈ survivingOutflows "S" 0 mixedTxs
      ↔ ({ total := 5, count := 1 } : Agg).total > 1 / 1000)
    ∧ survivingInflows "S" 0 dustScenarioTxs
        = [mkInflowRow "X" { total := 3, count := 3 } 0] :=
  dust_floor_strictly_above "S" 0 mixedTxs "X" "Y"
    { total := 2, count := 1 } { total := 5, count := 1 }
    (by norm_num [inflowMap, foldFlowMap, flowStep, mapGet, mapSet,
      inflowPred, mixedTxs, inTx, outTx, List.filter, List.foldl,
      List.any])
    (by norm_num [outflowMap, foldFlowMap, flowStep, mapGet, mapSet,
      outflowPred, mixedTxs, inTx, outTx, List.filter, List.foldl,
      List.any])

/-! ## C5: failed mints and the holder intersection -/

/-- C5 counterexample: with one successful mint (holders `a`, `b`) and
one failed mint, the run returns the successful mint's holders — the
failed mint's empty contribution is excluded by the non-empty filter
before intersecting, whereas an intersection to which the failed mint
actually contributed its empty set (the claim's reading, modelled by
`specIntersectAll`) would be empty. -/
theorem failed_mint_contribution_skipped :
    specIntersectAll [some ["a", "b"], none] = []
    ∧ findCommonWallets [some ["a", "b"], none]
        = FindOutcome.common ["a", "b"] := by
  constructor
  · simp [specIntersectAll, firstDedup, intersectStep]
  · simp [findCommonWallets, firstDedup]

/-- C5 (amended): a mint whose holder fetch fails contributes the
empty list, which the non-empty filter then removes before the
pairwise intersection — so a failed mint never narrows the result and
never aborts the run (deleting a failed entry changes nothing); and
when every fetch failed or returned no holders the outcome is the
"No Results" report, not an error. -/
theorem findCommonWallets_failed_mint
    (xs ys rs : List (Option (List String)))
    (hall : ∀ r ∈ rs, (r.getD []).length = 0) :
    findCommonWallets (xs ++ none :: ys) = findCommonWallets (xs ++ ys)
    ∧ findCommonWallets rs = FindOutcome.noResults := by
  constructor
  · unfold findCommonWallets
    rw [List.map_append, List.map_cons, List.filter_append,
      List.filter_cons, List.map_append, List.filter_append]
    simp
  · unfold findCommonWallets
    have hfil : (rs.map (fun r => r.getD [])).filter
        (fun l => decide (l.length > 0)) = [] := by
      rw [List.filter_eq_nil_iff]
      intro l hl
      rw [List.mem_map] at hl
      obtain ⟨r, hr, rfl⟩ := hl
      simp [hall r hr]
    rw [hfil]

/-- Witness for the amended C5: removing a failed mint from a concrete
run changes nothing, and an all-failed/all-empty run reports "No
Results". -/
theorem findCommonWallets_failed_mint_witness :
    findCommonWallets ([some ["a"]] ++ none :: [some ["a", "b"]])
      = findCommonWallets ([some ["a"]] ++ [some ["a", "b"]])
    ∧ findCommonWallets [none, some []] = FindOutcome.noResults :=
  findCommonWallets_failed_mint [some ["a"]] [some ["a", "b"]]
    [none, some []] (by decide)

/-! ## C9: total fetch failure at the call boundary -/

/-- C9 counterexample: when the signature request has failed on the
transfer-history path, `fetchWalletTransactions` returns the empty
list — exactly the value a successful request with zero signatures
returns — so no `DataUnavailable` error is observable at the call
boundary of the transfer-history fetch, refuting the claim for this
request kind. -/
theorem fetch_failure_indistinguishable :
    fetchWalletTransactions "W" none noTx = []
    ∧ fetchWalletTransactions "W" (some []) noTx = []
    ∧ fetchWalletTransactions "W" none noTx
        = fetchWalletTransactions "W" (some []) noTx :=
  ⟨rfl, rfl, rfl⟩

/-- C9 (amended): only the holder fetch surfaces total failure — after
all three endpoints fail `fetchTokenHolders` throws
`Failed to fetch holders for token: <mint>` (and any successful
endpoint yields an `ok` result) — while `fetchWalletTransactions`
swallows a total failure into an empty result list indistinguishable
from a zero-transfer success. -/
theorem fetch_total_failure_behaviour (w tokenAddress : String)
    (getTx : String → Option ParsedTransaction)
    (accounts : List String) :
    fetchWalletTransactions w none getTx = []
    ∧ fetchTokenHolders tokenAddress none none none
        = Except.error ("Failed to fetch holders for token: "
            ++ tokenAddress)
    ∧ fetchTokenHolders tokenAddress none none (some accounts)
        = Except.ok (firstDedup accounts)
    ∧ fetchTokenHolders tokenAddress (some accounts) none none
        = Except.ok (firstDedup accounts) :=
  ⟨rfl, rfl, rfl, rfl⟩

/-! ## The tracer: unfolding equations -/

/-- `traceHops` with no remaining hops returns the state unchanged. -/
theorem traceHops_zero (fetch : String → List TransactionData)
    (w : String) (hop : Nat) (st : TraceState) :
    traceHops fetch 0 w hop st = st := rfl

/-- One-step unfolding of `traceHops` on a positive hop budget. -/
theorem traceHops_succ (fetch : String → List TransactionData)
    (n : Nat) (w : String) (hop : Nat) (st : TraceState) :
    traceHops fetch (n + 1) w hop st
      = if st.processedWallets.contains w then st
        else
          let st1 := { st with
            processedWallets := st.processedWallets ++ [w] }
          let st2 := expandWallet fetch w hop st1
          if n + 1 > 1 then
            (nextHopWallets w (fetch w)).foldl
              (fun s x => traceHops fetch n x (hop + 1) s) st2
          else st2 := rfl

/-! ## C6: the next-hop frontier -/

/-- C6 counterexample: for target `T` with six inbound counterparties
seen in order `a1..a6` and `a6` carrying the uniquely largest total
(9 versus 1), the selected frontier is `a1..a5` — the first five map
keys in first-insertion order — and the largest-total counterparty
`a6` is NOT selected.  A frontier truncated "descending by total
amount" would have to contain `a6`, so the claim is false. -/
theorem frontier_not_sorted_by_total :
    nextHopWallets "T" c6Txs = ["a1", "a2", "a3", "a4", "a5"]
    ∧ ("a6", ({ total := 9, count := 1 } : Agg)) ∈ inflowMap "T" c6Txs
    ∧ (∀ p ∈ inflowMap "T" c6Txs, ¬ p.1 = "a6" → p.2.total < 9)
    ∧ ¬ "a6" ∈ nextHopWallets "T" c6Txs := by
  have hmap : inflowMap "T" c6Txs
      = [("a1", { total := 1, count := 1 }),
         ("a2", { total := 1, count := 1 }),
         ("a3", { total := 1, count := 1 }),
         ("a4", { total := 1, count := 1 }),
         ("a5", { total := 1, count := 1 }),
         ("a6", { total := 9, count := 1 })] := by
    simp [inflowMap, foldFlowMap, flowStep, mapGet, mapSet,
      inflowPred, c6Txs, List.filter, List.foldl, List.find?, List.any]
  have homap : outflowMap "T" c6Txs = [] := by
    simp [outflowMap, foldFlowMap, outflowPred, c6Txs, List.filter,
      List.foldl]
  refine ⟨?_, ?_, ?_, ?_⟩
  · unfold nextHopWallets
    rw [hmap, homap]
    rfl
  · rw [hmap]
    simp
  · rw [hmap]
    intro p hp hne
    simp only [List.mem_cons, List.not_mem_nil, or_false] at hp
    rcases hp with rfl | rfl | rfl | rfl | rfl | rfl
    · norm_num
    · norm_num
    · norm_num
    · norm_num
    · norm_num
    · exact absurd rfl hne
  · unfold nextHopWallets
    rw [hmap, homap]
    decide

/-- C6 (amended): when a node is expanded with at least two hops
remaining, the recursion proceeds over exactly the first five entries
of the concatenation of the inflow map's key list and the outflow
map's key list, in first-insertion (first-encounter) order — a
branching cap of at most 5 — applied after the one-node expansion
step. -/
theorem traceHops_frontier_first_five
    (fetch : String → List TransactionData) (w : String)
    (hop rem : Nat) (st : TraceState)
    (h : st.processedWallets.contains w = false) :
    traceHops fetch (rem + 2) w hop st
      = (nextHopWallets w (fetch w)).foldl
          (fun s x => traceHops fetch (rem + 1) x (hop + 1) s)
          (expandWallet fetch w hop
            { st with processedWallets := st.processedWallets ++ [w] })
    ∧ (nextHopWallets w (fetch w)).length ≤ 5
    ∧ nextHopWallets w (fetch w)
        = ((inflowMap w (fetch w)).map Prod.fst
            ++ (outflowMap w (fetch w)).map Prod.fst).take 5 := by
  refine ⟨?_, ?_, rfl⟩
  · rw [show rem + 2 = (rem + 1) + 1 from rfl, traceHops_succ, h]
    have h21 : rem + 1 + 1 > 1 := by omega
    simp only [Bool.false_eq_true, if_false, h21, if_true]
  · unfold nextHopWallets
    rw [List.length_take]
    exact min_le_left _ _

/-- Witness for the amended C6 at the concrete `c6Fetch` graph,
target `T`, two hops. -/
theorem traceHops_frontier_first_five_witness :
    traceHops c6Fetch 2 "T" 0 initialTraceState
      = (nextHopWallets "T" (c6Fetch "T")).foldl
          (fun s x => traceHops c6Fetch 1 x 1 s)
          (expandWallet c6Fetch "T" 0
            { initialTraceState with
              processedWallets :=
                initialTraceState.processedWallets ++ ["T"] })
    ∧ (nextHopWallets "T" (c6Fetch "T")).length ≤ 5
    ∧ nextHopWallets "T" (c6Fetch "T")
        = ((inflowMap "T" (c6Fetch "T")).map Prod.fst
            ++ (outflowMap "T" (c6Fetch "T")).map Prod.fst).take 5 :=
  traceHops_frontier_first_five c6Fetch "T" 0 0 initialTraceState rfl

/-! ## C1 and C7: the visited guard and the fetch budget -/

/-- `expandWallet` appends exactly one entry to the fetch log. -/
theorem expandWallet_fetchLog (fetch : String → List TransactionData)
    (w : String) (hop : Nat) (st : TraceState) :
    (expandWallet fetch w hop st).fetchLog = st.fetchLog ++ [w] := rfl

/-- `expandWallet` does not touch the visited set. -/
theorem expandWallet_processedWallets
    (fetch : String → List TransactionData) (w : String) (hop : Nat)
    (st : TraceState) :
    (expandWallet fetch w hop st).processedWallets
      = st.processedWallets := rfl

/-- `traceHops` preserves the run invariant: the address is appended
to the visited set and to the fetch log together, and only when the
visited guard let the expansion through. -/
theorem traceHops_inv (fetch : String → List TransactionData) :
    ∀ (n : Nat) (w : String) (hop : Nat) (st : TraceState),
      TraceInv st → TraceInv (traceHops fetch n w hop st) := by
  intro n
  induction n with
  | zero =>
    intro w hop st h
    rw [traceHops_zero]
    exact h
  | succ m ih =>
    intro w hop st h
    rw [traceHops_succ]
    by_cases hc : st.processedWallets.contains w
    · simp only [hc, if_true]
      exact h
    · rw [if_neg hc]
      have hwnot : w ∉ st.fetchLog := by
        intro hmem
        exact hc (List.elem_eq_true_of_mem (h.2 w hmem))
      have hstep : TraceInv (expandWallet fetch w hop
          { st with processedWallets := st.processedWallets ++ [w] }) := by
        constructor
        · rw [expandWallet_fetchLog]
          simp [List.nodup_append, h.1, hwnot]
        · intro a ha
          rw [expandWallet_fetchLog] at ha
          rw [expandWallet_processedWallets]
          rcases List.mem_append.mp ha with ha | ha
          · exact List.mem_append.mpr (Or.inl (h.2 a ha))
          · exact List.mem_append.mpr (Or.inr ha)
      by_cases hm : m + 1 > 1
      · simp only [hm, if_true]
        exact foldl_preserve TraceInv _
          (fun s a hs => ih a (hop + 1) s hs) _ _ hstep
      · simp only [hm, if_false]
        exact hstep

/-- C1: across one whole run starting from the empty state no address
has its transfer history fetched twice (the fetch log is
duplicate-free); a call on an already-visited address returns without
fetching (the state is unchanged); and every fetched address is in the
final visited set — the address is marked visited before its history
is fetched. -/
theorem traceHops_expands_each_address_once
    (fetch : String → List TransactionData) (target w : String)
    (maxHops hop : Nat) (st : TraceState)
    (hmax : 1 ≤ maxHops)
    (hvisited : st.processedWallets.contains w = true) :
    (traceHops fetch maxHops target 0 initialTraceState).fetchLog.Nodup
    ∧ traceHops fetch maxHops w hop st = st
    ∧ ((traceHops fetch maxHops target 0 initialTraceState).fetchLog.all
        (fun a => (traceHops fetch maxHops target 0
          initialTraceState).processedWallets.contains a)) = true := by
  have hinv : TraceInv (traceHops fetch maxHops target 0
      initialTraceState) :=
    traceHops_inv fetch maxHops target 0 initialTraceState
      ⟨by simp [initialTraceState], by simp [initialTraceState]⟩
  refine ⟨hinv.1, ?_, ?_⟩
  · obtain ⟨k, rfl⟩ : ∃ k, maxHops = k + 1 := ⟨maxHops - 1, by omega⟩
    rw [traceHops_succ]
    simp only [hvisited, if_true]
  · rw [List.all_eq_true]
    intro a ha
    exact List.elem_eq_true_of_mem (hinv.2 a ha)

/-- Witness for C1 on the concrete `c6Fetch` graph with two hops and a
state in which `V` is already visited. -/
theorem traceHops_expands_each_address_once_witness :
    (traceHops c6Fetch 2 "T" 0 initialTraceState).fetchLog.Nodup
    ∧ traceHops c6Fetch 2 "V" 0 visitedState = visitedState
    ∧ ((traceHops c6Fetch 2 "T" 0 initialTraceState).fetchLog.all
        (fun a => (traceHops c6Fetch 2 "T" 0
          initialTraceState).processedWallets.contains a)) = true :=
  traceHops_expands_each_address_once c6Fetch "T" "V" 2 0 visitedState
    (by omega) (by decide)

/-- `geomSum k` is the geometric series `1 + 5 + ... + 5^(k-1)`. -/
theorem geomSum_eq (k : Nat) :
    geomSum k = Finset.sum (Finset.range k) (fun i => 5 ^ i) := by
  induction k with
  | zero => rfl
  | succ n ih =>
    show 1 + 5 * geomSum n = _
    rw [ih, Finset.sum_range_succ', Finset.mul_sum]
    simp [pow_succ]
    rw [add_comm]
    congr 1
    apply Finset.sum_congr rfl
    intro x hx
    ring

/-- The number of fetches of a trace with `n` remaining hops grows by
at most `geomSum n = 1 + 5 + ... + 5^(n-1)`. -/
theorem traceHops_fetchLog_length (fetch : String → List TransactionData) :
    ∀ (n : Nat) (w : String) (hop : Nat) (st : TraceState),
      (traceHops fetch n w hop st).fetchLog.length
        ≤ st.fetchLog.length + geomSum n := by
  intro n
  induction n with
  | zero =>
    intro w hop st
    rw [traceHops_zero]
    simp [geomSum]
  | succ m ih =>
    intro w hop st
    rw [traceHops_succ]
    by_cases hc : st.processedWallets.contains w
    · simp only [hc, if_true]
      exact Nat.le_add_right _ _
    · rw [if_neg hc]
      have hexp : (TraceState.fetchLog (expandWallet fetch w hop
          { st with processedWallets := st.processedWallets ++ [w] })).length
            = st.fetchLog.length + 1 := by
        rw [expandWallet_fetchLog]
        simp
      by_cases hm : m + 1 > 1
      · simp only [hm, if_true]
        have hfold : ∀ (l : List String) (s : TraceState),
            (TraceState.fetchLog
                (l.foldl (fun s x => traceHops fetch m x (hop + 1) s) s)).length
              ≤ s.fetchLog.length + l.length * geomSum m := by
          intro l
          induction l with
          | nil => intro s; simp
          | cons a t iht =>
            intro s
            rw [List.foldl_cons]
            have h1 := iht (traceHops fetch m a (hop + 1) s)
            have h2 := ih a (hop + 1) s
            have h3 : (t.length + 1) * geomSum m
                = t.length * geomSum m + geomSum m := by ring
            simp only [List.length_cons]
            omega
        refine le_trans (hfold _ _) ?_
        have hlen5 : (nextHopWallets w (fetch w)).length ≤ 5 := by
          unfold nextHopWallets
          rw [List.length_take]
          exact min_le_left _ _
        have hmul : (nextHopWallets w (fetch w)).length * geomSum m
            ≤ 5 * geomSum m := Nat.mul_le_mul_right _ hlen5
        have hg : geomSum (m + 1) = 1 + 5 * geomSum m := rfl
        omega
      · simp only [hm, if_false]
        have hg : geomSum (m + 1) = 1 + 5 * geomSum m := rfl
        omega

/-- C7: a full trace with `1 ≤ maxHops ≤ 5` issues at most
`1 + 5 + 5^2 + ... + 5^(maxHops-1)` transfer-history fetches — the
recursion is total by construction (the remaining-hops budget
decreases), and `geomSum` is exactly that geometric series.  (The
bound holds for every `maxHops`; the hypotheses record the slider
range of the UI.) -/
theorem traceHops_fetch_budget (fetch : String → List TransactionData)
    (target : String) (k : Nat) (h1 : 1 ≤ k) (h2 : k ≤ 5) :
    (traceHops fetch k target 0 initialTraceState).fetchLog.length
      ≤ geomSum k
    ∧ geomSum k = Finset.sum (Finset.range k) (fun i => 5 ^ i) := by
  constructor
  · have h := traceHops_fetchLog_length fetch k target 0 initialTraceState
    simpa [initialTraceState] using h
  · exact geomSum_eq k

/-- Witness for C7 at the concrete `c6Fetch` graph with two hops. -/
theorem traceHops_fetch_budget_witness :
    (traceHops c6Fetch 2 "T" 0 initialTraceState).fetchLog.length
      ≤ geomSum 2
    ∧ geomSum 2 = Finset.sum (Finset.range 2) (fun i => 5 ^ i) :=
  traceHops_fetch_budget c6Fetch "T" 2 (by omega) (by omega)
